import Mathlib

/-!
Shallow embedding of `src/api/internal/BamMultiMerger_p.h` (bamtools).

The header defines three implementations of the `IBamMultiMerger` interface:

* `PositionMultiMerger`  — `std::multimap<(int,int), ReaderAlignment, SortLessThanPosition>`
* `ReadNameMultiMerger`  — `std::multimap<std::string, ReaderAlignment>`
* `UnsortedMultiMerger`  — `std::vector<ReaderAlignment>`

Each C++ container is modelled as a Lean list in iteration order.  A
`std::multimap::insert` places the new element at the upper bound of its
key, i.e. after every element whose key is not strictly greater — this is
`mmInsert` below.  `begin()` is the head of the list, `erase(begin())` is
the tail, and the `Remove` scan is a first-match removal that skips
entries whose reader pointer is null, exactly as in the source.

External collaborators that the header only calls (they are declared in
other bamtools headers, not in this repository's source):
`BamReader::GetFilename` is modelled as a stored string field, and the
success/failure of `BamAlignment::BuildCharData` is modelled as a boolean
field of the record (on success the record's `Name` is the materialized
name).  Pointers: the reader slot of a `ReaderAlignment` is an
`Option BamReader` because the source explicitly checks it against null;
the alignment slot is a plain `BamAlignment` because the source
dereferences it unconditionally.

A C++ `std::string` is a byte sequence compared bytewise
(lexicographically, shorter prefix first); it is modelled as `List Nat`
with the explicit lexicographic comparator `stringLess`, and
`operator==` as list equality.
-/

namespace BamTools

/-- A source stream handle; `filename` models `BamReader::GetFilename()`,
the stable external key used by `Remove`. -/
structure BamReader where
  filename : List Nat
deriving DecidableEq, Repr

/-- C++ `BamReader::GetFilename` as used by the `Remove` implementations. -/
def BamReader.GetFilename (r : BamReader) : List Nat :=
  r.filename

/-- The alignment record fields relevant to the merger: `RefID` and
`Position` (the position sort key), `Name` (the read-name sort key) and
the result of the external `BamAlignment::BuildCharData()` call, modelled
as a boolean (`true` = name materialization succeeds). -/
structure BamAlignment where
  RefID : Int
  Position : Int
  Name : List Nat
  buildCharDataOk : Bool
deriving DecidableEq, Repr

/-- C++ `BamAlignment::BuildCharData()` outcome (the call itself lives outside
this repository; only its success flag matters to the merger). -/
def BamAlignment.BuildCharData (al : BamAlignment) : Bool :=
  al.buildCharDataOk

/-- C++ `typedef std::pair<BamReader*, BamAlignment*> ReaderAlignment;`
The reader pointer may be null (checked in `Remove`), the alignment
pointer is always dereferenced, hence not optional here. -/
abbrev ReaderAlignment := Option BamReader × BamAlignment

/-- C++ `PositionMultiMerger::KeyType = std::pair<int,int>` : (RefID, Position). -/
abbrev KeyType := Int × Int

/-- C++ `PositionMultiMerger::SortLessThanPosition::operator()`:

    if ( lhs.first == -1 ) return false;
    if ( rhs.first == -1 ) return true;
    if ( lhs.first != rhs.first ) return lhs.first < rhs.first;
    else return lhs.second < rhs.second;
-/
def SortLessThanPosition (lhs rhs : KeyType) : Bool :=
  if lhs.1 = -1 then false
  else if rhs.1 = -1 then true
  else if lhs.1 ≠ rhs.1 then decide (lhs.1 < rhs.1)
  else decide (lhs.2 < rhs.2)

/-- C++ `std::string` comparison (`std::less<std::string>`) used by
`std::multimap<std::string, ...>`: lexicographic order on the byte
sequence, a strict prefix comparing less. -/
def stringLess : List Nat → List Nat → Bool
  | [], [] => false
  | [], _ :: _ => true
  | _ :: _, [] => false
  | a :: as, b :: bs =>
    if a < b then true
    else if b < a then false
    else stringLess as bs

/-- C++ `std::multimap::insert`: the new element is placed at the upper bound
of its key, i.e. after every element whose key is not strictly greater
than `k` under the comparator. -/
def mmInsert {K V : Type} (cmp : K → K → Bool) (k : K) (v : V) :
    List (K × V) → List (K × V)
  | [] => [(k, v)]
  | e :: rest =>
    if cmp k e.1 then (k, v) :: e :: rest
    else e :: mmInsert cmp k v rest

/-- The shared `Remove(BamReader* reader)` scan body: walk the container
in iteration order, skip entries with a null reader pointer, erase the
first entry whose reader's filename equals `fn`, then return.  `proj`
extracts the reader pointer from a container element (`.second.first`
for the multimap variants, `.first` for the vector variant). -/
def removeFirstBy {α : Type} (proj : α → Option BamReader) (fn : List Nat) :
    List α → List α
  | [] => []
  | e :: rest =>
    match proj e with
    | none => e :: removeFirstBy proj fn rest
    | some rd =>
      if rd.GetFilename = fn then rest
      else e :: removeFirstBy proj fn rest

/-- Whether the `Remove` scan matches a container element: its reader
pointer is non-null and its filename equals `fn`. -/
def matchesBy {α : Type} (proj : α → Option BamReader) (fn : List Nat) (e : α) : Bool :=
  match proj e with
  | none => false
  | some rd => decide (rd.GetFilename = fn)

-- ------------------------------------------
-- PositionMultiMerger

/-- C++ `PositionMultiMerger`: `m_data` is the
`std::multimap<KeyType, ReaderAlignment, SortLessThanPosition>` in
iteration order. -/
structure PositionMultiMerger where
  m_data : List (KeyType × ReaderAlignment)
deriving DecidableEq, Repr

/-- A freshly constructed `PositionMultiMerger` (empty container). -/
def PositionMultiMerger.empty : PositionMultiMerger :=
  ⟨[]⟩

/-- C++ `PositionMultiMerger::Add`: key is `(value.second->RefID,
value.second->Position)`; `m_data.insert(ElementType(key, value))`. -/
def PositionMultiMerger.Add (value : ReaderAlignment) (m : PositionMultiMerger) :
    PositionMultiMerger :=
  ⟨mmInsert SortLessThanPosition (value.2.RefID, value.2.Position) value m.m_data⟩

/-- C++ `PositionMultiMerger::Clear`: `m_data.clear()`. -/
def PositionMultiMerger.Clear (_ : PositionMultiMerger) : PositionMultiMerger :=
  ⟨[]⟩

/-- C++ `PositionMultiMerger::First`: `(*m_data.begin()).second`.  Calling on
an empty container is undefined behaviour in C++; modelled as `none`. -/
def PositionMultiMerger.First (m : PositionMultiMerger) : Option ReaderAlignment :=
  m.m_data.head?.map (·.2)

/-- C++ `PositionMultiMerger::IsEmpty`: `m_data.empty()`. -/
def PositionMultiMerger.IsEmpty (m : PositionMultiMerger) : Bool :=
  m.m_data.isEmpty

/-- C++ `PositionMultiMerger::Remove(BamReader* reader)`. -/
def PositionMultiMerger.Remove (reader : Option BamReader) (m : PositionMultiMerger) :
    PositionMultiMerger :=
  match reader with
  | none => m
  | some rd => ⟨removeFirstBy (fun e => e.2.1) rd.GetFilename m.m_data⟩

/-- C++ `PositionMultiMerger::Size`: `m_data.size()`. -/
def PositionMultiMerger.Size (m : PositionMultiMerger) : Nat :=
  m.m_data.length

/-- C++ `PositionMultiMerger::TakeFirst`: copy `(*m_data.begin()).second`,
erase `begin()`, return the copy.  On an empty container this is
undefined behaviour in C++; modelled as `none`. -/
def PositionMultiMerger.TakeFirst (m : PositionMultiMerger) :
    Option (ReaderAlignment × PositionMultiMerger) :=
  match m.m_data with
  | [] => none
  | e :: rest => some (e.2, ⟨rest⟩)

/-- Driver loop: insert a sequence of entries in order, starting from an
empty merger. -/
def PositionMultiMerger.addAll (vs : List ReaderAlignment) : PositionMultiMerger :=
  vs.foldl (fun m v => m.Add v) PositionMultiMerger.empty

/-- Repeated `TakeFirst` until the merger is empty; the fuel starts at
`Size`, which is exactly the number of extractions performed. -/
def PositionMultiMerger.drainGo : Nat → PositionMultiMerger → List ReaderAlignment
  | 0, _ => []
  | fuel + 1, m =>
    match m.TakeFirst with
    | none => []
    | some (v, m') => v :: PositionMultiMerger.drainGo fuel m'

/-- The sequence of entries returned by calling `TakeFirst` repeatedly
until `IsEmpty`. -/
def PositionMultiMerger.drain (m : PositionMultiMerger) : List ReaderAlignment :=
  PositionMultiMerger.drainGo m.Size m

/-- The position sort key extracted from an entry, as `Add` computes it. -/
def keyOfP (v : ReaderAlignment) : KeyType :=
  (v.2.RefID, v.2.Position)

-- ------------------------------------------
-- ReadNameMultiMerger

/-- C++ `ReadNameMultiMerger`: `m_data` is the
`std::multimap<std::string, ReaderAlignment>` in iteration order. -/
structure ReadNameMultiMerger where
  m_data : List (List Nat × ReaderAlignment)
deriving DecidableEq, Repr

/-- A freshly constructed `ReadNameMultiMerger` (empty container). -/
def ReadNameMultiMerger.empty : ReadNameMultiMerger :=
  ⟨[]⟩

/-- C++ `ReadNameMultiMerger::Add`:

    BamAlignment* al = value.second;
    if ( al->BuildCharData() ) {
        const KeyType key(al->Name);
        m_data.insert( ElementType(key, value) );
    }

If name materialization fails, the entry is silently dropped. -/
def ReadNameMultiMerger.Add (value : ReaderAlignment) (m : ReadNameMultiMerger) :
    ReadNameMultiMerger :=
  if value.2.BuildCharData then
    ⟨mmInsert stringLess value.2.Name value m.m_data⟩
  else m

/-- C++ `ReadNameMultiMerger::Clear`: `m_data.clear()`. -/
def ReadNameMultiMerger.Clear (_ : ReadNameMultiMerger) : ReadNameMultiMerger :=
  ⟨[]⟩

/-- C++ `ReadNameMultiMerger::First`: `(*m_data.begin()).second`; undefined
behaviour on an empty container, modelled as `none`. -/
def ReadNameMultiMerger.First (m : ReadNameMultiMerger) : Option ReaderAlignment :=
  m.m_data.head?.map (·.2)

/-- C++ `ReadNameMultiMerger::IsEmpty`: `m_data.empty()`. -/
def ReadNameMultiMerger.IsEmpty (m : ReadNameMultiMerger) : Bool :=
  m.m_data.isEmpty

/-- C++ `ReadNameMultiMerger::Remove(BamReader* reader)`. -/
def ReadNameMultiMerger.Remove (reader : Option BamReader) (m : ReadNameMultiMerger) :
    ReadNameMultiMerger :=
  match reader with
  | none => m
  | some rd => ⟨removeFirstBy (fun e => e.2.1) rd.GetFilename m.m_data⟩

/-- C++ `ReadNameMultiMerger::Size`: `m_data.size()`. -/
def ReadNameMultiMerger.Size (m : ReadNameMultiMerger) : Nat :=
  m.m_data.length

/-- C++ `ReadNameMultiMerger::TakeFirst`: copy `(*m_data.begin()).second`,
erase `begin()`, return the copy; undefined behaviour on an empty
container, modelled as `none`. -/
def ReadNameMultiMerger.TakeFirst (m : ReadNameMultiMerger) :
    Option (ReaderAlignment × ReadNameMultiMerger) :=
  match m.m_data with
  | [] => none
  | e :: rest => some (e.2, ⟨rest⟩)

/-- Driver loop: insert a sequence of entries in order, starting from an
empty merger. -/
def ReadNameMultiMerger.addAll (vs : List ReaderAlignment) : ReadNameMultiMerger :=
  vs.foldl (fun m v => m.Add v) ReadNameMultiMerger.empty

/-- Repeated `TakeFirst` with explicit fuel. -/
def ReadNameMultiMerger.drainGo : Nat → ReadNameMultiMerger → List ReaderAlignment
  | 0, _ => []
  | fuel + 1, m =>
    match m.TakeFirst with
    | none => []
    | some (v, m') => v :: ReadNameMultiMerger.drainGo fuel m'

/-- The sequence of entries returned by calling `TakeFirst` repeatedly
until `IsEmpty`. -/
def ReadNameMultiMerger.drain (m : ReadNameMultiMerger) : List ReaderAlignment :=
  ReadNameMultiMerger.drainGo m.Size m

-- ------------------------------------------
-- UnsortedMultiMerger

/-- C++ `UnsortedMultiMerger`: `m_data` is the `std::vector<ReaderAlignment>`
in element order. -/
structure UnsortedMultiMerger where
  m_data : List ReaderAlignment
deriving DecidableEq, Repr

/-- A freshly constructed `UnsortedMultiMerger` (empty container). -/
def UnsortedMultiMerger.empty : UnsortedMultiMerger :=
  ⟨[]⟩

/-- C++ `UnsortedMultiMerger::Add`: `m_data.push_back(value)`. -/
def UnsortedMultiMerger.Add (value : ReaderAlignment) (m : UnsortedMultiMerger) :
    UnsortedMultiMerger :=
  ⟨m.m_data ++ [value]⟩

/-- The loop body of `UnsortedMultiMerger::Clear`:

    for (size_t i = 0; i < m_data.size(); ++i )
        m_data.pop_back();

`i` increases while `m_data.size()` (re-read each iteration) shrinks, so
the loop runs while `i < m_data.size()` holds of the current, shrinking
vector.  `pop_back` drops the last element (`List.dropLast`). -/
def UnsortedMultiMerger.clearLoop (i : Nat) (data : List ReaderAlignment) :
    List ReaderAlignment :=
  if i < data.length then UnsortedMultiMerger.clearLoop (i + 1) data.dropLast
  else data
termination_by data.length - i
decreasing_by
  rename_i h
  have hlen : data.dropLast.length = data.length - 1 := List.length_dropLast data
  omega

/-- C++ `UnsortedMultiMerger::Clear` (the pop-back loop above, from `i = 0`). -/
def UnsortedMultiMerger.Clear (m : UnsortedMultiMerger) : UnsortedMultiMerger :=
  ⟨UnsortedMultiMerger.clearLoop 0 m.m_data⟩

/-- C++ `UnsortedMultiMerger::First`: `m_data.front()`; undefined behaviour
on an empty vector, modelled as `none`. -/
def UnsortedMultiMerger.First (m : UnsortedMultiMerger) : Option ReaderAlignment :=
  m.m_data.head?

/-- C++ `UnsortedMultiMerger::IsEmpty`: `m_data.empty()`. -/
def UnsortedMultiMerger.IsEmpty (m : UnsortedMultiMerger) : Bool :=
  m.m_data.isEmpty

/-- C++ `UnsortedMultiMerger::Remove(BamReader* reader)`: same scan, the
reader pointer being the `.first` of each vector element. -/
def UnsortedMultiMerger.Remove (reader : Option BamReader) (m : UnsortedMultiMerger) :
    UnsortedMultiMerger :=
  match reader with
  | none => m
  | some rd => ⟨removeFirstBy (fun e => e.1) rd.GetFilename m.m_data⟩

/-- C++ `UnsortedMultiMerger::Size`: `m_data.size()`. -/
def UnsortedMultiMerger.Size (m : UnsortedMultiMerger) : Nat :=
  m.m_data.length

/-- C++ `UnsortedMultiMerger::TakeFirst`: copy `m_data.front()`, erase
`m_data.begin()`, return the copy; undefined behaviour on an empty
vector, modelled as `none`. -/
def UnsortedMultiMerger.TakeFirst (m : UnsortedMultiMerger) :
    Option (ReaderAlignment × UnsortedMultiMerger) :=
  match m.m_data with
  | [] => none
  | e :: rest => some (e, ⟨rest⟩)

/-- Driver loop: insert a sequence of entries in order, starting from an
empty merger. -/
def UnsortedMultiMerger.addAll (vs : List ReaderAlignment) : UnsortedMultiMerger :=
  vs.foldl (fun m v => m.Add v) UnsortedMultiMerger.empty

/-- Repeated `TakeFirst` with explicit fuel. -/
def UnsortedMultiMerger.drainGo : Nat → UnsortedMultiMerger → List ReaderAlignment
  | 0, _ => []
  | fuel + 1, m =>
    match m.TakeFirst with
    | none => []
    | some (v, m') => v :: UnsortedMultiMerger.drainGo fuel m'

/-- The sequence of entries returned by calling `TakeFirst` repeatedly
until `IsEmpty`. -/
def UnsortedMultiMerger.drain (m : UnsortedMultiMerger) : List ReaderAlignment :=
  UnsortedMultiMerger.drainGo m.Size m

-- ------------------------------------------
-- Operation sequences (for the size/emptiness accounting claim)

/-- One call through the `IBamMultiMerger` mutating interface: `Add`,
`TakeFirst` or `Remove`.  (`Clear` is not an extraction/removal and is
outside the insert/extract/remove accounting.) -/
inductive MergeOp where
  | add (value : ReaderAlignment)
  | takeFirst
  | remove (reader : Option BamReader)

/-- Run a sequence of operations on a `PositionMultiMerger`, counting
(successful inserts, extractions, successful removals).  A `TakeFirst`
on an empty merger is undefined behaviour in C++ and yields `none`.
A removal is successful when it actually erased an entry (the size
shrank). -/
def PositionMultiMerger.runCount :
    List MergeOp → PositionMultiMerger →
    Option (PositionMultiMerger × Nat × Nat × Nat)
  | [], m => some (m, 0, 0, 0)
  | MergeOp.add v :: ops, m =>
    (PositionMultiMerger.runCount ops (m.Add v)).map
      (fun r => (r.1, r.2.1 + 1, r.2.2.1, r.2.2.2))
  | MergeOp.takeFirst :: ops, m =>
    match m.TakeFirst with
    | none => none
    | some (_, m') =>
      (PositionMultiMerger.runCount ops m').map
        (fun r => (r.1, r.2.1, r.2.2.1 + 1, r.2.2.2))
  | MergeOp.remove rd :: ops, m =>
    let m' := m.Remove rd
    let rc := if m'.Size = m.Size then 0 else 1
    (PositionMultiMerger.runCount ops m').map
      (fun r => (r.1, r.2.1, r.2.2.1, r.2.2.2 + rc))

/-- Same accounting for `ReadNameMultiMerger`; an insert is successful
when `BuildCharData` succeeds (otherwise `Add` drops the entry). -/
def ReadNameMultiMerger.runCount :
    List MergeOp → ReadNameMultiMerger →
    Option (ReadNameMultiMerger × Nat × Nat × Nat)
  | [], m => some (m, 0, 0, 0)
  | MergeOp.add v :: ops, m =>
    let ac := if v.2.BuildCharData then 1 else 0
    (ReadNameMultiMerger.runCount ops (m.Add v)).map
      (fun r => (r.1, r.2.1 + ac, r.2.2.1, r.2.2.2))
  | MergeOp.takeFirst :: ops, m =>
    match m.TakeFirst with
    | none => none
    | some (_, m') =>
      (ReadNameMultiMerger.runCount ops m').map
        (fun r => (r.1, r.2.1, r.2.2.1 + 1, r.2.2.2))
  | MergeOp.remove rd :: ops, m =>
    let m' := m.Remove rd
    let rc := if m'.Size = m.Size then 0 else 1
    (ReadNameMultiMerger.runCount ops m').map
      (fun r => (r.1, r.2.1, r.2.2.1, r.2.2.2 + rc))

/-- Same accounting for `UnsortedMultiMerger`. -/
def UnsortedMultiMerger.runCount :
    List MergeOp → UnsortedMultiMerger →
    Option (UnsortedMultiMerger × Nat × Nat × Nat)
  | [], m => some (m, 0, 0, 0)
  | MergeOp.add v :: ops, m =>
    (UnsortedMultiMerger.runCount ops (m.Add v)).map
      (fun r => (r.1, r.2.1 + 1, r.2.2.1, r.2.2.2))
  | MergeOp.takeFirst :: ops, m =>
    match m.TakeFirst with
    | none => none
    | some (_, m') =>
      (UnsortedMultiMerger.runCount ops m').map
        (fun r => (r.1, r.2.1, r.2.2.1 + 1, r.2.2.2))
  | MergeOp.remove rd :: ops, m =>
    let m' := m.Remove rd
    let rc := if m'.Size = m.Size then 0 else 1
    (UnsortedMultiMerger.runCount ops m').map
      (fun r => (r.1, r.2.1, r.2.2.1, r.2.2.2 + rc))

-- ------------------------------------------
-- Derived relations and concrete example data

/-- Incomparability induced by `SortLessThanPosition`: neither key
compares less than the other. -/
def posIncomp (a b : KeyType) : Prop :=
  SortLessThanPosition a b = false ∧ SortLessThanPosition b a = false

/-- An entry with the given position key, a null reader pointer and a
record whose other fields are inert. -/
def alnPos (r p : Int) : ReaderAlignment :=
  (none, ⟨r, p, [], true⟩)

/-- An entry with the given read name (materialization succeeding), a
null reader pointer and inert position fields. -/
def alnName (nm : List Nat) : ReaderAlignment :=
  (none, ⟨0, 0, nm, true⟩)

/-- An entry whose name materialization fails. -/
def alnBadName : ReaderAlignment :=
  (none, ⟨0, 0, [], false⟩)

/-- The byte string "read1". -/
def nmRead1 : List Nat := [114, 101, 97, 100, 49]

/-- The byte string "read2". -/
def nmRead2 : List Nat := [114, 101, 97, 100, 50]

/-- The byte string "read3". -/
def nmRead3 : List Nat := [114, 101, 97, 100, 51]

/-- Reader handle with filename "X". -/
def readerX : BamReader := ⟨[88]⟩

/-- Reader handle with filename "Y". -/
def readerY : BamReader := ⟨[89]⟩

/-- Reader handle with filename "Z". -/
def readerZ : BamReader := ⟨[90]⟩

/-- An entry offered by the given reader, with inert record fields. -/
def entryOf (rd : BamReader) : ReaderAlignment :=
  (some rd, ⟨0, 0, [], true⟩)

end BamTools

namespace BamTools

-- basic comparator facts, used throughout

theorem SortLessThanPosition_irrefl (a : KeyType) :
    SortLessThanPosition a a = false := by
  simp only [SortLessThanPosition]
  split_ifs <;> simp_all

theorem SortLessThanPosition_asymm (a b : KeyType) :
    SortLessThanPosition a b = true → SortLessThanPosition b a = false := by
  simp only [SortLessThanPosition]
  split_ifs <;> simp_all <;> omega

theorem SortLessThanPosition_trans (a b c : KeyType) :
    SortLessThanPosition a b = true → SortLessThanPosition b c = true →
    SortLessThanPosition a c = true := by
  simp only [SortLessThanPosition]
  split_ifs <;> simp_all <;> omega

theorem SortLessThanPosition_notLt_trans (a b c : KeyType) :
    SortLessThanPosition b a = false → SortLessThanPosition c b = false →
    SortLessThanPosition c a = false := by
  simp only [SortLessThanPosition]
  split_ifs <;> simp_all <;> omega

theorem stringLess_irrefl (a : List Nat) : stringLess a a = false := by
  induction a with
  | nil => rfl
  | cons x xs ih => simp [stringLess, ih]

theorem stringLess_asymm (a b : List Nat) :
    stringLess a b = true → stringLess b a = false := by
  induction a generalizing b with
  | nil =>
    cases b with
    | nil => simp [stringLess]
    | cons y ys => simp [stringLess]
  | cons x xs ih =>
    cases b with
    | nil => simp [stringLess]
    | cons y ys =>
      simp only [stringLess]
      intro h
      rcases Nat.lt_trichotomy x y with hxy | hxy | hxy
      · simp [Nat.lt_asymm hxy, hxy]
      · subst hxy
        simp only [Nat.lt_irrefl, if_false, if_neg] at h ⊢
        exact ih ys h
      · simp [hxy] at h
        exact absurd h (Nat.lt_asymm hxy)

theorem stringLess_trans (a b c : List Nat) :
    stringLess a b = true → stringLess b c = true → stringLess a c = true := by
  induction a generalizing b c with
  | nil =>
    cases b <;> cases c <;> simp [stringLess]
  | cons x xs ih =>
    cases b with
    | nil => simp [stringLess]
    | cons y ys =>
      cases c with
      | nil => simp [stringLess]
      | cons z zs =>
        simp only [stringLess]
        intro hab hbc
        rcases Nat.lt_trichotomy x y with hxy | hxy | hxy
        · rcases Nat.lt_trichotomy y z with hyz | hyz | hyz
          · simp [Nat.lt_trans hxy hyz]
          · subst hyz; simp [hxy]
          · simp [Nat.lt_asymm hyz, hyz] at hbc
        · subst hxy
          simp only [Nat.lt_irrefl, if_false, if_neg] at hab
          rcases Nat.lt_trichotomy x z with hxz | hxz | hxz
          · simp [hxz]
          · subst hxz
            simp only [Nat.lt_irrefl, if_false, if_neg] at hbc ⊢
            exact ih ys zs hab hbc
          · simp [Nat.lt_asymm hxz, hxz] at hbc
        · simp [Nat.lt_asymm hxy, hxy] at hab

theorem stringLess_eq_of_not_lt (a b : List Nat) :
    stringLess a b = false → stringLess b a = false → a = b := by
  induction a generalizing b with
  | nil => cases b <;> simp [stringLess]
  | cons x xs ih =>
    cases b with
    | nil => simp [stringLess]
    | cons y ys =>
      simp only [stringLess]
      intro hab hba
      rcases Nat.lt_trichotomy x y with hxy | hxy | hxy
      · simp [hxy] at hab
      · subst hxy
        simp only [Nat.lt_irrefl, if_false, if_neg] at hab hba
        simp [ih ys hab hba]
      · simp [hxy] at hba

theorem stringLess_notLt_trans (a b c : List Nat) :
    stringLess b a = false → stringLess c b = false →
    stringLess c a = false := by
  intro hba hcb
  by_contra hca
  rw [Bool.not_eq_false] at hca
  rcases h : stringLess b c with _ | _
  · have hbc : b = c := stringLess_eq_of_not_lt b c h hcb
    subst hbc
    rw [hca] at hba
    exact Bool.noConfusion hba
  · have hba' : stringLess b a = true := stringLess_trans b c a h hca
    rw [hba'] at hba
    exact Bool.noConfusion hba

-- ------------------------------------------
-- multimap insertion lemmas

theorem mmInsert_perm {K V : Type} (cmp : K → K → Bool) (k : K) (v : V)
    (l : List (K × V)) : (mmInsert cmp k v l).Perm ((k, v) :: l) := by
  induction l with
  | nil => simp [mmInsert]
  | cons e rest ih =>
    simp only [mmInsert]
    split_ifs with h
    · exact List.Perm.refl _
    · exact (ih.cons e).trans (List.Perm.swap (k, v) e rest)

theorem mmInsert_length {K V : Type} (cmp : K → K → Bool) (k : K) (v : V)
    (l : List (K × V)) : (mmInsert cmp k v l).length = l.length + 1 := by
  have h := (mmInsert_perm cmp k v l).length_eq
  simpa using h

theorem mem_mmInsert {K V : Type} (cmp : K → K → Bool) (k : K) (v : V)
    (l : List (K × V)) (x : K × V) :
    x ∈ mmInsert cmp k v l ↔ x = (k, v) ∨ x ∈ l := by
  rw [(mmInsert_perm cmp k v l).mem_iff]
  simp

theorem mmInsert_pairwise {K V : Type} (cmp : K → K → Bool)
    (htrans : ∀ a b c, cmp a b = true → cmp b c = true → cmp a c = true)
    (hasym : ∀ a b, cmp a b = true → cmp b a = false)
    (k : K) (v : V) (l : List (K × V))
    (hl : l.Pairwise (fun a b => cmp b.1 a.1 = false)) :
    (mmInsert cmp k v l).Pairwise (fun a b => cmp b.1 a.1 = false) := by
  induction l with
  | nil => simp [mmInsert]
  | cons e rest ih =>
    rcases List.pairwise_cons.mp hl with ⟨he, hrest⟩
    simp only [mmInsert]
    split_ifs with h
    · refine List.pairwise_cons.mpr ⟨?_, hl⟩
      intro x hx
      rcases List.mem_cons.mp hx with heq | hx
      · rw [heq]
        exact hasym k e.1 h
      · by_contra hc
        rw [Bool.not_eq_false] at hc
        have hxe : cmp x.1 e.1 = true := htrans x.1 k e.1 hc h
        rw [he x hx] at hxe
        exact Bool.noConfusion hxe
    · refine List.pairwise_cons.mpr ⟨?_, ih hrest⟩
      intro x hx
      rcases (mem_mmInsert cmp k v rest x).mp hx with heq | hx
      · rw [heq]
        simp only [Bool.not_eq_true] at h
        exact h
      · exact he x hx

-- ------------------------------------------
-- removal-scan lemmas

theorem removeFirstBy_of_no_match {α : Type} (proj : α → Option BamReader)
    (fn : List Nat) (l : List α)
    (h : ∀ e ∈ l, matchesBy proj fn e = false) :
    removeFirstBy proj fn l = l := by
  induction l with
  | nil => rfl
  | cons e rest ih =>
    have he := h e (List.mem_cons_self e rest)
    have hrest : ∀ x ∈ rest, matchesBy proj fn x = false :=
      fun x hx => h x (List.mem_cons_of_mem e hx)
    cases hp : proj e with
    | none => simp [removeFirstBy, hp, ih hrest]
    | some rd =>
      simp only [matchesBy, hp, decide_eq_false_iff_not] at he
      simp [removeFirstBy, hp, he, ih hrest]

theorem removeFirstBy_split {α : Type} (proj : α → Option BamReader)
    (fn : List Nat) (pre : List α) (e : α) (post : List α)
    (hpre : ∀ x ∈ pre, matchesBy proj fn x = false)
    (he : matchesBy proj fn e = true) :
    removeFirstBy proj fn (pre ++ e :: post) = pre ++ post := by
  induction pre with
  | nil =>
    cases hp : proj e with
    | none => simp [matchesBy, hp] at he
    | some rd =>
      simp only [matchesBy, hp, decide_eq_true_eq] at he
      simp [removeFirstBy, hp, he]
  | cons x pre' ih =>
    have hx := hpre x (List.mem_cons_self x pre')
    have hpre' : ∀ y ∈ pre', matchesBy proj fn y = false :=
      fun y hy => hpre y (List.mem_cons_of_mem x hy)
    cases hp : proj x with
    | none => simp [removeFirstBy, hp, ih hpre']
    | some rd =>
      simp only [matchesBy, hp, decide_eq_false_iff_not] at hx
      simp [removeFirstBy, hp, hx, ih hpre']

theorem removeFirstBy_length {α : Type} (proj : α → Option BamReader)
    (fn : List Nat) (l : List α) :
    (removeFirstBy proj fn l).length = l.length ∨
    (removeFirstBy proj fn l).length + 1 = l.length := by
  induction l with
  | nil => left; rfl
  | cons e rest ih =>
    cases hp : proj e with
    | none =>
      simp only [removeFirstBy, hp, List.length_cons]
      rcases ih with h | h <;> omega
    | some rd =>
      simp only [removeFirstBy, hp]
      split_ifs with h
      · right
        simp
      · simp only [List.length_cons]
        rcases ih with h' | h' <;> omega

-- ------------------------------------------
-- drain lemmas: repeated TakeFirst empties the container front to back

theorem posDrainGo_eq (data : List (KeyType × ReaderAlignment)) :
    PositionMultiMerger.drainGo data.length ⟨data⟩ = data.map (fun e => e.2) := by
  induction data with
  | nil => rfl
  | cons e rest ih =>
    simp [PositionMultiMerger.drainGo, PositionMultiMerger.TakeFirst, ih]

theorem posDrain_eq (m : PositionMultiMerger) :
    m.drain = m.m_data.map (fun e => e.2) := by
  rcases m with ⟨data⟩
  exact posDrainGo_eq data

theorem nameDrainGo_eq (data : List (List Nat × ReaderAlignment)) :
    ReadNameMultiMerger.drainGo data.length ⟨data⟩ = data.map (fun e => e.2) := by
  induction data with
  | nil => rfl
  | cons e rest ih =>
    simp [ReadNameMultiMerger.drainGo, ReadNameMultiMerger.TakeFirst, ih]

theorem nameDrain_eq (m : ReadNameMultiMerger) :
    m.drain = m.m_data.map (fun e => e.2) := by
  rcases m with ⟨data⟩
  exact nameDrainGo_eq data

theorem unsDrainGo_eq (data : List ReaderAlignment) :
    UnsortedMultiMerger.drainGo data.length ⟨data⟩ = data := by
  induction data with
  | nil => rfl
  | cons e rest ih =>
    simp [UnsortedMultiMerger.drainGo, UnsortedMultiMerger.TakeFirst, ih]

theorem unsDrain_eq (m : UnsortedMultiMerger) :
    m.drain = m.m_data := by
  rcases m with ⟨data⟩
  exact unsDrainGo_eq data

-- ------------------------------------------
-- reachable-state invariants of the sorted variants

theorem posFoldlAdd_invariant (vs : List ReaderAlignment)
    (m : PositionMultiMerger)
    (hs : m.m_data.Pairwise (fun a b => SortLessThanPosition b.1 a.1 = false))
    (hk : ∀ e ∈ m.m_data, e.1 = keyOfP e.2) :
    (vs.foldl (fun m v => m.Add v) m).m_data.Pairwise
      (fun a b => SortLessThanPosition b.1 a.1 = false) ∧
    ∀ e ∈ (vs.foldl (fun m v => m.Add v) m).m_data, e.1 = keyOfP e.2 := by
  induction vs generalizing m with
  | nil => exact ⟨hs, hk⟩
  | cons v rest ih =>
    simp only [List.foldl_cons]
    apply ih
    · exact mmInsert_pairwise SortLessThanPosition SortLessThanPosition_trans
        SortLessThanPosition_asymm (keyOfP v) v m.m_data hs
    · intro e he
      rcases (mem_mmInsert SortLessThanPosition (keyOfP v) v m.m_data e).mp he with heq | he'
      · rw [heq]
      · exact hk e he'

theorem posAddAll_pairwise (vs : List ReaderAlignment) :
    (PositionMultiMerger.addAll vs).m_data.Pairwise
      (fun a b => SortLessThanPosition b.1 a.1 = false) :=
  (posFoldlAdd_invariant vs PositionMultiMerger.empty
    (List.Pairwise.nil) (by intro e he; cases he)).1

theorem posAddAll_keys (vs : List ReaderAlignment) :
    ∀ e ∈ (PositionMultiMerger.addAll vs).m_data, e.1 = keyOfP e.2 :=
  (posFoldlAdd_invariant vs PositionMultiMerger.empty
    (List.Pairwise.nil) (by intro e he; cases he)).2

theorem nameFoldlAdd_invariant (vs : List ReaderAlignment)
    (m : ReadNameMultiMerger)
    (hs : m.m_data.Pairwise (fun a b => stringLess b.1 a.1 = false))
    (hk : ∀ e ∈ m.m_data, e.1 = e.2.2.Name) :
    (vs.foldl (fun m v => m.Add v) m).m_data.Pairwise
      (fun a b => stringLess b.1 a.1 = false) ∧
    ∀ e ∈ (vs.foldl (fun m v => m.Add v) m).m_data, e.1 = e.2.2.Name := by
  induction vs generalizing m with
  | nil => exact ⟨hs, hk⟩
  | cons v rest ih =>
    simp only [List.foldl_cons]
    by_cases hb : v.2.BuildCharData = true
    · have hadd : m.Add v = ⟨mmInsert stringLess v.2.Name v m.m_data⟩ := by
        simp [ReadNameMultiMerger.Add, hb]
      rw [hadd]
      apply ih
      · exact mmInsert_pairwise stringLess stringLess_trans
          stringLess_asymm v.2.Name v m.m_data hs
      · intro e he
        rcases (mem_mmInsert stringLess v.2.Name v m.m_data e).mp he with heq | he'
        · rw [heq]
        · exact hk e he'
    · have hadd : m.Add v = m := by
        simp [ReadNameMultiMerger.Add, hb]
      rw [hadd]
      exact ih m hs hk

theorem nameAddAll_pairwise (vs : List ReaderAlignment) :
    (ReadNameMultiMerger.addAll vs).m_data.Pairwise
      (fun a b => stringLess b.1 a.1 = false) :=
  (nameFoldlAdd_invariant vs ReadNameMultiMerger.empty
    (List.Pairwise.nil) (by intro e he; cases he)).1

theorem nameAddAll_keys (vs : List ReaderAlignment) :
    ∀ e ∈ (ReadNameMultiMerger.addAll vs).m_data, e.1 = e.2.2.Name :=
  (nameFoldlAdd_invariant vs ReadNameMultiMerger.empty
    (List.Pairwise.nil) (by intro e he; cases he)).2

theorem UnsortedMultiMerger.foldl_add_data (vs : List ReaderAlignment)
    (m : UnsortedMultiMerger) :
    (vs.foldl (fun m v => m.Add v) m).m_data = m.m_data ++ vs := by
  induction vs generalizing m with
  | nil => simp
  | cons v rest ih =>
    simp only [List.foldl_cons]
    rw [ih]
    simp [UnsortedMultiMerger.Add]

theorem UnsortedMultiMerger.addAll_data (vs : List ReaderAlignment) :
    (UnsortedMultiMerger.addAll vs).m_data = vs := by
  have h := UnsortedMultiMerger.foldl_add_data vs UnsortedMultiMerger.empty
  simpa [UnsortedMultiMerger.empty] using h

-- ------------------------------------------
-- the Unsorted Clear pop-back loop: closed form

theorem UnsortedMultiMerger.clearLoop_eq_take :
    ∀ (n i : Nat) (data : List ReaderAlignment), data.length - i ≤ n →
      UnsortedMultiMerger.clearLoop i data =
        data.take ((data.length + i) / 2) := by
  intro n
  induction n with
  | zero =>
    intro i data h
    rw [UnsortedMultiMerger.clearLoop.eq_def, if_neg (by omega)]
    rw [List.take_of_length_le (by omega)]
  | succ n ih =>
    intro i data h
    by_cases hlt : i < data.length
    · rw [UnsortedMultiMerger.clearLoop.eq_def, if_pos hlt]
      have hdrop : data.dropLast.length = data.length - 1 := List.length_dropLast data
      have hrec := ih (i + 1) data.dropLast (by omega)
      rw [hrec, hdrop]
      rw [List.dropLast_eq_take, List.take_take]
      congr 1
      omega
    · rw [UnsortedMultiMerger.clearLoop.eq_def, if_neg hlt]
      rw [List.take_of_length_le (by omega)]

theorem UnsortedMultiMerger.Clear_eq_take (m : UnsortedMultiMerger) :
    m.Clear.m_data = m.m_data.take (m.m_data.length / 2) := by
  have h := UnsortedMultiMerger.clearLoop_eq_take m.m_data.length 0 m.m_data (by omega)
  simpa [UnsortedMultiMerger.Clear] using h

-- ------------------------------------------
-- per-operation size lemmas

theorem posAdd_size (v : ReaderAlignment) (m : PositionMultiMerger) :
    (m.Add v).Size = m.Size + 1 :=
  mmInsert_length SortLessThanPosition (keyOfP v) v m.m_data

theorem nameAdd_size (v : ReaderAlignment) (m : ReadNameMultiMerger) :
    (m.Add v).Size = if v.2.BuildCharData then m.Size + 1 else m.Size := by
  by_cases hb : v.2.BuildCharData = true
  · simp only [ReadNameMultiMerger.Add, hb, if_pos]
    exact mmInsert_length stringLess v.2.Name v m.m_data
  · simp [ReadNameMultiMerger.Add, hb]

theorem unsAdd_size (v : ReaderAlignment) (m : UnsortedMultiMerger) :
    (m.Add v).Size = m.Size + 1 := by
  simp [UnsortedMultiMerger.Add, UnsortedMultiMerger.Size]

theorem posTakeFirst_size (m : PositionMultiMerger)
    (v : ReaderAlignment) (m' : PositionMultiMerger)
    (h : m.TakeFirst = some (v, m')) : m'.Size + 1 = m.Size := by
  rcases m with ⟨data⟩
  cases data with
  | nil => simp [PositionMultiMerger.TakeFirst] at h
  | cons e rest =>
    simp only [PositionMultiMerger.TakeFirst, Option.some.injEq, Prod.mk.injEq] at h
    rw [← h.2]
    simp [PositionMultiMerger.Size]

theorem nameTakeFirst_size (m : ReadNameMultiMerger)
    (v : ReaderAlignment) (m' : ReadNameMultiMerger)
    (h : m.TakeFirst = some (v, m')) : m'.Size + 1 = m.Size := by
  rcases m with ⟨data⟩
  cases data with
  | nil => simp [ReadNameMultiMerger.TakeFirst] at h
  | cons e rest =>
    simp only [ReadNameMultiMerger.TakeFirst, Option.some.injEq, Prod.mk.injEq] at h
    rw [← h.2]
    simp [ReadNameMultiMerger.Size]

theorem unsTakeFirst_size (m : UnsortedMultiMerger)
    (v : ReaderAlignment) (m' : UnsortedMultiMerger)
    (h : m.TakeFirst = some (v, m')) : m'.Size + 1 = m.Size := by
  rcases m with ⟨data⟩
  cases data with
  | nil => simp [UnsortedMultiMerger.TakeFirst] at h
  | cons e rest =>
    simp only [UnsortedMultiMerger.TakeFirst, Option.some.injEq, Prod.mk.injEq] at h
    rw [← h.2]
    simp [UnsortedMultiMerger.Size]

theorem posRemove_size (rd : Option BamReader)
    (m : PositionMultiMerger) :
    (m.Remove rd).Size = m.Size ∨ (m.Remove rd).Size + 1 = m.Size := by
  cases rd with
  | none => left; rfl
  | some r => exact removeFirstBy_length (fun e => e.2.1) r.GetFilename m.m_data

theorem nameRemove_size (rd : Option BamReader)
    (m : ReadNameMultiMerger) :
    (m.Remove rd).Size = m.Size ∨ (m.Remove rd).Size + 1 = m.Size := by
  cases rd with
  | none => left; rfl
  | some r => exact removeFirstBy_length (fun e => e.2.1) r.GetFilename m.m_data

theorem unsRemove_size (rd : Option BamReader)
    (m : UnsortedMultiMerger) :
    (m.Remove rd).Size = m.Size ∨ (m.Remove rd).Size + 1 = m.Size := by
  cases rd with
  | none => left; rfl
  | some r => exact removeFirstBy_length (fun e => e.1) r.GetFilename m.m_data

-- ------------------------------------------
-- operation-sequence size accounting

theorem posRunCount_size (ops : List MergeOp) :
    ∀ (m₀ m : PositionMultiMerger) (a t r : Nat),
      PositionMultiMerger.runCount ops m₀ = some (m, a, t, r) →
      m.Size + t + r = m₀.Size + a := by
  induction ops with
  | nil =>
    intro m₀ m a t r h
    simp only [PositionMultiMerger.runCount, Option.some.injEq, Prod.mk.injEq] at h
    obtain ⟨rfl, rfl, rfl, rfl⟩ := h
    omega
  | cons op ops ih =>
    intro m₀ m a t r h
    cases op with
    | add v =>
      simp only [PositionMultiMerger.runCount, Option.map_eq_some'] at h
      obtain ⟨⟨m', a', t', r'⟩, hrun, hf⟩ := h
      simp only [Prod.mk.injEq] at hf
      obtain ⟨rfl, rfl, rfl, rfl⟩ := hf
      have hih := ih (m₀.Add v) m' a' t' r' hrun
      have hsz := posAdd_size v m₀
      omega
    | takeFirst =>
      cases hT : m₀.TakeFirst with
      | none =>
        simp only [PositionMultiMerger.runCount, hT] at h
        exact Option.noConfusion h
      | some p =>
        obtain ⟨v', m₁⟩ := p
        simp only [PositionMultiMerger.runCount, hT, Option.map_eq_some'] at h
        obtain ⟨⟨m', a', t', r'⟩, hrun, hf⟩ := h
        simp only [Prod.mk.injEq] at hf
        obtain ⟨rfl, rfl, rfl, rfl⟩ := hf
        have hih := ih m₁ m' a' t' r' hrun
        have hsz := posTakeFirst_size m₀ v' m₁ hT
        omega
    | remove rd =>
      simp only [PositionMultiMerger.runCount, Option.map_eq_some'] at h
      obtain ⟨⟨m', a', t', r'⟩, hrun, hf⟩ := h
      simp only [Prod.mk.injEq] at hf
      obtain ⟨rfl, rfl, rfl, rfl⟩ := hf
      have hih := ih (m₀.Remove rd) m' a' t' r' hrun
      have hsz := posRemove_size rd m₀
      by_cases hc : (m₀.Remove rd).Size = m₀.Size
      · simp only [if_pos hc] at *
        omega
      · simp only [if_neg hc] at *
        omega

theorem nameRunCount_size (ops : List MergeOp) :
    ∀ (m₀ m : ReadNameMultiMerger) (a t r : Nat),
      ReadNameMultiMerger.runCount ops m₀ = some (m, a, t, r) →
      m.Size + t + r = m₀.Size + a := by
  induction ops with
  | nil =>
    intro m₀ m a t r h
    simp only [ReadNameMultiMerger.runCount, Option.some.injEq, Prod.mk.injEq] at h
    obtain ⟨rfl, rfl, rfl, rfl⟩ := h
    omega
  | cons op ops ih =>
    intro m₀ m a t r h
    cases op with
    | add v =>
      simp only [ReadNameMultiMerger.runCount, Option.map_eq_some'] at h
      obtain ⟨⟨m', a', t', r'⟩, hrun, hf⟩ := h
      simp only [Prod.mk.injEq] at hf
      obtain ⟨rfl, rfl, rfl, rfl⟩ := hf
      have hih := ih (m₀.Add v) m' a' t' r' hrun
      have hsz := nameAdd_size v m₀
      by_cases hb : v.2.BuildCharData = true
      · simp only [if_pos hb] at *
        omega
      · simp only [if_neg hb] at *
        omega
    | takeFirst =>
      cases hT : m₀.TakeFirst with
      | none =>
        simp only [ReadNameMultiMerger.runCount, hT] at h
        exact Option.noConfusion h
      | some p =>
        obtain ⟨v', m₁⟩ := p
        simp only [ReadNameMultiMerger.runCount, hT, Option.map_eq_some'] at h
        obtain ⟨⟨m', a', t', r'⟩, hrun, hf⟩ := h
        simp only [Prod.mk.injEq] at hf
        obtain ⟨rfl, rfl, rfl, rfl⟩ := hf
        have hih := ih m₁ m' a' t' r' hrun
        have hsz := nameTakeFirst_size m₀ v' m₁ hT
        omega
    | remove rd =>
      simp only [ReadNameMultiMerger.runCount, Option.map_eq_some'] at h
      obtain ⟨⟨m', a', t', r'⟩, hrun, hf⟩ := h
      simp only [Prod.mk.injEq] at hf
      obtain ⟨rfl, rfl, rfl, rfl⟩ := hf
      have hih := ih (m₀.Remove rd) m' a' t' r' hrun
      have hsz := nameRemove_size rd m₀
      by_cases hc : (m₀.Remove rd).Size = m₀.Size
      · simp only [if_pos hc] at *
        omega
      · simp only [if_neg hc] at *
        omega

theorem unsRunCount_size (ops : List MergeOp) :
    ∀ (m₀ m : UnsortedMultiMerger) (a t r : Nat),
      UnsortedMultiMerger.runCount ops m₀ = some (m, a, t, r) →
      m.Size + t + r = m₀.Size + a := by
  induction ops with
  | nil =>
    intro m₀ m a t r h
    simp only [UnsortedMultiMerger.runCount, Option.some.injEq, Prod.mk.injEq] at h
    obtain ⟨rfl, rfl, rfl, rfl⟩ := h
    omega
  | cons op ops ih =>
    intro m₀ m a t r h
    cases op with
    | add v =>
      simp only [UnsortedMultiMerger.runCount, Option.map_eq_some'] at h
      obtain ⟨⟨m', a', t', r'⟩, hrun, hf⟩ := h
      simp only [Prod.mk.injEq] at hf
      obtain ⟨rfl, rfl, rfl, rfl⟩ := hf
      have hih := ih (m₀.Add v) m' a' t' r' hrun
      have hsz := unsAdd_size v m₀
      omega
    | takeFirst =>
      cases hT : m₀.TakeFirst with
      | none =>
        simp only [UnsortedMultiMerger.runCount, hT] at h
        exact Option.noConfusion h
      | some p =>
        obtain ⟨v', m₁⟩ := p
        simp only [UnsortedMultiMerger.runCount, hT, Option.map_eq_some'] at h
        obtain ⟨⟨m', a', t', r'⟩, hrun, hf⟩ := h
        simp only [Prod.mk.injEq] at hf
        obtain ⟨rfl, rfl, rfl, rfl⟩ := hf
        have hih := ih m₁ m' a' t' r' hrun
        have hsz := unsTakeFirst_size m₀ v' m₁ hT
        omega
    | remove rd =>
      simp only [UnsortedMultiMerger.runCount, Option.map_eq_some'] at h
      obtain ⟨⟨m', a', t', r'⟩, hrun, hf⟩ := h
      simp only [Prod.mk.injEq] at hf
      obtain ⟨rfl, rfl, rfl, rfl⟩ := hf
      have hih := ih (m₀.Remove rd) m' a' t' r' hrun
      have hsz := unsRemove_size rd m₀
      by_cases hc : (m₀.Remove rd).Size = m₀.Size
      · simp only [if_pos hc] at *
        omega
      · simp only [if_neg hc] at *
        omega

-- ------------------------------------------
-- further comparator and drain-key plumbing

theorem SortLessThanPosition_unmapped_propagate (a b : KeyType) :
    SortLessThanPosition b a = false → a.1 = -1 → b.1 = -1 := by
  simp only [SortLessThanPosition]
  split_ifs <;> simp_all

theorem PositionMultiMerger.addAll_drain_keys (vs : List ReaderAlignment) :
    (PositionMultiMerger.addAll vs).drain.map keyOfP =
      (PositionMultiMerger.addAll vs).m_data.map (fun e => e.1) := by
  rw [posDrain_eq, List.map_map]
  apply List.map_congr_left
  intro e he
  exact (posAddAll_keys vs e he).symm

theorem ReadNameMultiMerger.addAll_drain_names (vs : List ReaderAlignment) :
    (ReadNameMultiMerger.addAll vs).drain.map (fun v => v.2.Name) =
      (ReadNameMultiMerger.addAll vs).m_data.map (fun e => e.1) := by
  rw [nameDrain_eq, List.map_map]
  apply List.map_congr_left
  intro e he
  exact (nameAddAll_keys vs e he).symm

theorem ReadNameMultiMerger.foldl_add_perm (vs : List ReaderAlignment) :
    ∀ m : ReadNameMultiMerger, (∀ v ∈ vs, v.2.BuildCharData = true) →
      ((vs.foldl (fun m v => m.Add v) m).m_data.map (fun e => e.2)).Perm
        (m.m_data.map (fun e => e.2) ++ vs) := by
  induction vs with
  | nil => intro m _; simp
  | cons v rest ih =>
    intro m hv
    have hb := hv v (List.mem_cons_self v rest)
    have hrest : ∀ x ∈ rest, x.2.BuildCharData = true :=
      fun x hx => hv x (List.mem_cons_of_mem v hx)
    simp only [List.foldl_cons]
    have hadd : m.Add v = ⟨mmInsert stringLess v.2.Name v m.m_data⟩ := by
      simp [ReadNameMultiMerger.Add, hb]
    rw [hadd]
    have h1 := ih ⟨mmInsert stringLess v.2.Name v m.m_data⟩ hrest
    have h2 : ((mmInsert stringLess v.2.Name v m.m_data).map (fun e => e.2)).Perm
        (v :: m.m_data.map (fun e => e.2)) := by
      have hp := (mmInsert_perm stringLess v.2.Name v m.m_data).map (fun e => e.2)
      simpa using hp
    exact h1.trans ((h2.append_right rest).trans List.perm_middle.symm)

theorem ReadNameMultiMerger.addAll_perm (vs : List ReaderAlignment)
    (hv : ∀ v ∈ vs, v.2.BuildCharData = true) :
    ((ReadNameMultiMerger.addAll vs).drain).Perm vs := by
  rw [nameDrain_eq]
  have h := ReadNameMultiMerger.foldl_add_perm vs ReadNameMultiMerger.empty hv
  simpa [ReadNameMultiMerger.empty] using h

-- ------------------------------------------
-- claim theorems

/-- C1: for the Position-order merger, any sequence of inserts followed by
repeated `TakeFirst` until empty yields `(RefID, Position)` keys that are
pairwise non-decreasing under `SortLessThanPosition` (no later key compares
less than an earlier one), with a key whose `RefID` is `-1` never followed
by a mapped key; moreover an unmapped key compares strictly greater than
any mapped key regardless of positions, and the concrete run that inserts
`(-1,5)`, `(2,100)`, `(1,1)` drains as `(1,1)`, `(2,100)`, `(-1,5)`. -/
theorem C1_position_drain_sorted_unmapped_last :
    (∀ vs : List ReaderAlignment,
      ((PositionMultiMerger.addAll vs).drain.map keyOfP).Pairwise
        (fun a b => SortLessThanPosition b a = false) ∧
      ((PositionMultiMerger.addAll vs).drain.map keyOfP).Pairwise
        (fun a b => a.1 = -1 → b.1 = -1)) ∧
    (∀ q p r : Int, r ≠ -1 →
      SortLessThanPosition ((r, p) : KeyType) (-1, q) = true ∧
      SortLessThanPosition ((-1, q) : KeyType) (r, p) = false) ∧
    (PositionMultiMerger.addAll
        [alnPos (-1) 5, alnPos 2 100, alnPos 1 1]).drain.map keyOfP =
      [((1 : Int), (1 : Int)), ((2 : Int), (100 : Int)),
       ((-1 : Int), (5 : Int))] := by
  refine ⟨?_, ?_, ?_⟩
  · intro vs
    rw [PositionMultiMerger.addAll_drain_keys]
    constructor
    · exact List.pairwise_map.mpr (posAddAll_pairwise vs)
    · refine List.pairwise_map.mpr ?_
      exact (posAddAll_pairwise vs).imp
        (fun hab => SortLessThanPosition_unmapped_propagate _ _ hab)
  · intro q p r hr
    constructor
    · simp [SortLessThanPosition, hr]
    · simp [SortLessThanPosition]
  · rw [PositionMultiMerger.addAll_drain_keys]
    decide

/-- C1 witness: the unmapped-greater-than-mapped component applied at the
concrete keys `(2,100)` and `(-1,5)`. -/
theorem C1_position_witness :
    SortLessThanPosition (((2 : Int), (100 : Int)) : KeyType) (-1, 5) = true ∧
    SortLessThanPosition (((-1 : Int), (5 : Int)) : KeyType) (2, 100) = false :=
  C1_position_drain_sorted_unmapped_last.2.1 5 100 2 (by decide)

/-- C10: `SortLessThanPosition` is a strict weak ordering on
`(referenceId, position)` keys: irreflexive, asymmetric, transitive, with
an incomparability relation that is an equivalence; any two keys with
`referenceId = -1` are mutually incomparable regardless of position. -/
theorem C10_position_comparator_strict_weak_order :
    (∀ a : KeyType, SortLessThanPosition a a = false) ∧
    (∀ a b : KeyType,
      SortLessThanPosition a b = true → SortLessThanPosition b a = false) ∧
    (∀ a b c : KeyType,
      SortLessThanPosition a b = true → SortLessThanPosition b c = true →
      SortLessThanPosition a c = true) ∧
    Equivalence posIncomp ∧
    (∀ p q : Int, posIncomp (-1, p) (-1, q)) := by
  refine ⟨SortLessThanPosition_irrefl, SortLessThanPosition_asymm,
    SortLessThanPosition_trans, ?_, ?_⟩
  · refine ⟨fun a => ⟨SortLessThanPosition_irrefl a, SortLessThanPosition_irrefl a⟩,
      fun h => ⟨h.2, h.1⟩, ?_⟩
    intro x y z hxy hyz
    exact ⟨SortLessThanPosition_notLt_trans z y x hyz.1 hxy.1,
      SortLessThanPosition_notLt_trans x y z hxy.2 hyz.2⟩
  · intro p q
    exact ⟨by simp [SortLessThanPosition], by simp [SortLessThanPosition]⟩

/-- C10 witness: asymmetry applied at the concrete keys `(0,0)` and
`(0,1)`. -/
theorem C10_position_witness :
    SortLessThanPosition (((0 : Int), (1 : Int)) : KeyType) (0, 0) = false :=
  C10_position_comparator_strict_weak_order.2.1 (0, 0) (0, 1) (by decide)

/-- C2: `Clear` on the Position and Name variants leaves zero buffered
entries, but the Unsorted variant's pop-back loop re-reads the shrinking
size each iteration and stops halfway: it keeps the first
`⌊n/2⌋` entries, so on a 2-entry merger `Clear` leaves one entry buffered
(`Size = 1`, `IsEmpty = false`), contradicting the claim that every
variant ends empty. -/
theorem C2_clear_code_bug :
    (∀ m : PositionMultiMerger, m.Clear.Size = 0 ∧ m.Clear.IsEmpty = true) ∧
    (∀ m : ReadNameMultiMerger, m.Clear.Size = 0 ∧ m.Clear.IsEmpty = true) ∧
    (∀ m : UnsortedMultiMerger,
      m.Clear.m_data = m.m_data.take (m.m_data.length / 2)) ∧
    (UnsortedMultiMerger.Clear ⟨[alnPos 0 0, alnPos 0 1]⟩).Size = 1 ∧
    (UnsortedMultiMerger.Clear ⟨[alnPos 0 0, alnPos 0 1]⟩).IsEmpty = false := by
  refine ⟨fun m => ⟨rfl, rfl⟩, fun m => ⟨rfl, rfl⟩,
    UnsortedMultiMerger.Clear_eq_take, ?_, ?_⟩
  · have h := UnsortedMultiMerger.Clear_eq_take ⟨[alnPos 0 0, alnPos 0 1]⟩
    simp only [UnsortedMultiMerger.Size, h]
    rfl
  · have h := UnsortedMultiMerger.Clear_eq_take ⟨[alnPos 0 0, alnPos 0 1]⟩
    simp only [UnsortedMultiMerger.IsEmpty, h]
    rfl

/-- C3: on the Name-order variant, an insert whose record fails name
materialization leaves the merger unchanged (the entry is silently
discarded, and `Add` returns normally with no error channel), while a
successful materialization buffers the entry keyed by the record's
name and grows the size by one. -/
theorem C3_name_add_drops_on_failed_materialization :
    ∀ (v : ReaderAlignment) (m : ReadNameMultiMerger),
      (v.2.BuildCharData = false → m.Add v = m) ∧
      (v.2.BuildCharData = true →
        (m.Add v).Size = m.Size + 1 ∧ (v.2.Name, v) ∈ (m.Add v).m_data) := by
  intro v m
  constructor
  · intro hb
    simp [ReadNameMultiMerger.Add, hb]
  · intro hb
    have hadd : m.Add v = ⟨mmInsert stringLess v.2.Name v m.m_data⟩ := by
      simp [ReadNameMultiMerger.Add, hb]
    constructor
    · rw [hadd]
      exact mmInsert_length stringLess v.2.Name v m.m_data
    · rw [hadd]
      exact (mem_mmInsert stringLess v.2.Name v m.m_data _).mpr (Or.inl rfl)

/-- C3 witness: inserting the failing record into the empty Name-order
merger leaves it unchanged, and inserting a succeeding record grows the
size to one. -/
theorem C3_name_witness :
    ReadNameMultiMerger.empty.Add alnBadName = ReadNameMultiMerger.empty ∧
    (ReadNameMultiMerger.empty.Add (alnName nmRead1)).Size =
      ReadNameMultiMerger.empty.Size + 1 :=
  ⟨(C3_name_add_drops_on_failed_materialization alnBadName
      ReadNameMultiMerger.empty).1 rfl,
   ((C3_name_add_drops_on_failed_materialization (alnName nmRead1)
      ReadNameMultiMerger.empty).2 rfl).1⟩

/-- C4: in every variant, when the buffered entries split as
`pre ++ e :: post` where nothing in `pre` matches the given reader's
filename and `e` does match it, `Remove` erases exactly `e` — the first
match in iteration order — and leaves every other entry in place, in its
original relative order, regardless of any further matches or duplicate
sort keys inside `post`. -/
theorem C4_remove_erases_exactly_first_match :
    (∀ (rd : BamReader) (pre post : List (KeyType × ReaderAlignment))
        (e : KeyType × ReaderAlignment),
      (∀ x ∈ pre, matchesBy (fun x => x.2.1) rd.GetFilename x = false) →
      matchesBy (fun x => x.2.1) rd.GetFilename e = true →
      PositionMultiMerger.Remove (some rd) ⟨pre ++ e :: post⟩ = ⟨pre ++ post⟩) ∧
    (∀ (rd : BamReader) (pre post : List (List Nat × ReaderAlignment))
        (e : List Nat × ReaderAlignment),
      (∀ x ∈ pre, matchesBy (fun x => x.2.1) rd.GetFilename x = false) →
      matchesBy (fun x => x.2.1) rd.GetFilename e = true →
      ReadNameMultiMerger.Remove (some rd) ⟨pre ++ e :: post⟩ = ⟨pre ++ post⟩) ∧
    (∀ (rd : BamReader) (pre post : List ReaderAlignment) (e : ReaderAlignment),
      (∀ x ∈ pre, matchesBy (fun x => x.1) rd.GetFilename x = false) →
      matchesBy (fun x => x.1) rd.GetFilename e = true →
      UnsortedMultiMerger.Remove (some rd) ⟨pre ++ e :: post⟩ = ⟨pre ++ post⟩) := by
  refine ⟨?_, ?_, ?_⟩
  · intro rd pre post e hpre he
    exact congrArg PositionMultiMerger.mk
      (removeFirstBy_split (fun x => x.2.1) rd.GetFilename pre e post hpre he)
  · intro rd pre post e hpre he
    exact congrArg ReadNameMultiMerger.mk
      (removeFirstBy_split (fun x => x.2.1) rd.GetFilename pre e post hpre he)
  · intro rd pre post e hpre he
    exact congrArg UnsortedMultiMerger.mk
      (removeFirstBy_split (fun x => x.1) rd.GetFilename pre e post hpre he)

/-- C4 witness: entries for sources X, Y, Z in the unsorted merger;
removing Y leaves exactly X and Z in their original order. -/
theorem C4_remove_witness :
    UnsortedMultiMerger.Remove (some readerY)
      ⟨[entryOf readerX, entryOf readerY, entryOf readerZ]⟩ =
      ⟨[entryOf readerX, entryOf readerZ]⟩ :=
  C4_remove_erases_exactly_first_match.2.2 readerY
    [entryOf readerX] [entryOf readerZ] (entryOf readerY)
    (by decide) (by decide)

/-- C5: in every variant, `Remove` with a null reader pointer, or with a
reader whose filename matches no buffered entry, returns normally and
leaves the buffered entries entirely unchanged. -/
theorem C5_remove_null_or_absent_is_noop :
    (∀ m : PositionMultiMerger, m.Remove none = m) ∧
    (∀ (rd : BamReader) (m : PositionMultiMerger),
      (∀ x ∈ m.m_data, matchesBy (fun x => x.2.1) rd.GetFilename x = false) →
      m.Remove (some rd) = m) ∧
    (∀ m : ReadNameMultiMerger, m.Remove none = m) ∧
    (∀ (rd : BamReader) (m : ReadNameMultiMerger),
      (∀ x ∈ m.m_data, matchesBy (fun x => x.2.1) rd.GetFilename x = false) →
      m.Remove (some rd) = m) ∧
    (∀ m : UnsortedMultiMerger, m.Remove none = m) ∧
    (∀ (rd : BamReader) (m : UnsortedMultiMerger),
      (∀ x ∈ m.m_data, matchesBy (fun x => x.1) rd.GetFilename x = false) →
      m.Remove (some rd) = m) := by
  refine ⟨fun m => rfl, ?_, fun m => rfl, ?_, fun m => rfl, ?_⟩
  · intro rd m h
    rcases m with ⟨data⟩
    exact congrArg PositionMultiMerger.mk
      (removeFirstBy_of_no_match (fun x => x.2.1) rd.GetFilename data h)
  · intro rd m h
    rcases m with ⟨data⟩
    exact congrArg ReadNameMultiMerger.mk
      (removeFirstBy_of_no_match (fun x => x.2.1) rd.GetFilename data h)
  · intro rd m h
    rcases m with ⟨data⟩
    exact congrArg UnsortedMultiMerger.mk
      (removeFirstBy_of_no_match (fun x => x.1) rd.GetFilename data h)

/-- C5 witness: removing reader Y from an unsorted merger that only
buffers an entry for X leaves the merger unchanged. -/
theorem C5_remove_witness :
    UnsortedMultiMerger.Remove (some readerY) ⟨[entryOf readerX]⟩ =
      ⟨[entryOf readerX]⟩ :=
  C5_remove_null_or_absent_is_noop.2.2.2.2.2 readerY
    ⟨[entryOf readerX]⟩ (by decide)

/-- C6: the Insertion-order variant is strict FIFO: after any sequence
of inserts, draining by repeated `TakeFirst` returns the entries exactly
in insertion order, and `First` peeks the oldest-inserted entry. -/
theorem C6_unsorted_fifo :
    ∀ vs : List ReaderAlignment,
      (UnsortedMultiMerger.addAll vs).drain = vs ∧
      (UnsortedMultiMerger.addAll vs).First = vs.head? := by
  intro vs
  constructor
  · rw [unsDrain_eq, UnsortedMultiMerger.addAll_data]
  · simp [UnsortedMultiMerger.First, UnsortedMultiMerger.addAll_data]

/-- C7: on the Name-order variant, after any sequence of inserts whose
records all materialize their names, draining by repeated `TakeFirst`
returns the buffered entries (a permutation of the inserted ones) with
names in non-decreasing lexicographic order; in particular inserting
names "read3", "read1", "read2" drains as "read1", "read2", "read3". -/
theorem C7_name_drain_lexicographic :
    (∀ vs : List ReaderAlignment, (∀ v ∈ vs, v.2.BuildCharData = true) →
      ((ReadNameMultiMerger.addAll vs).drain.map (fun v => v.2.Name)).Pairwise
        (fun a b => stringLess b a = false) ∧
      ((ReadNameMultiMerger.addAll vs).drain).Perm vs) ∧
    (ReadNameMultiMerger.addAll
        [alnName nmRead3, alnName nmRead1, alnName nmRead2]).drain =
      [alnName nmRead1, alnName nmRead2, alnName nmRead3] := by
  constructor
  · intro vs hv
    constructor
    · rw [ReadNameMultiMerger.addAll_drain_names]
      exact List.pairwise_map.mpr (nameAddAll_pairwise vs)
    · exact ReadNameMultiMerger.addAll_perm vs hv
  · decide

/-- C7 witness: the general part applied to the concrete insert sequence
"read3", "read1", "read2", whose records all materialize. -/
theorem C7_name_witness :
    ((ReadNameMultiMerger.addAll
        [alnName nmRead3, alnName nmRead1, alnName nmRead2]).drain.map
      (fun v => v.2.Name)).Pairwise (fun a b => stringLess b a = false) :=
  (C7_name_drain_lexicographic.1
    [alnName nmRead3, alnName nmRead1, alnName nmRead2] (by decide)).1

/-- C8: starting from an empty merger of any variant, after any sequence
of `Add`/`TakeFirst`/`Remove` calls that never takes from an empty merger,
`Size` equals the number of successful inserts minus the number of
extractions and successful removals, and in every state `IsEmpty` is true
exactly when `Size` is zero. -/
theorem C8_size_accounting :
    (∀ (ops : List MergeOp) (m : PositionMultiMerger) (a t r : Nat),
      PositionMultiMerger.runCount ops PositionMultiMerger.empty =
        some (m, a, t, r) → m.Size + t + r = a) ∧
    (∀ (ops : List MergeOp) (m : ReadNameMultiMerger) (a t r : Nat),
      ReadNameMultiMerger.runCount ops ReadNameMultiMerger.empty =
        some (m, a, t, r) → m.Size + t + r = a) ∧
    (∀ (ops : List MergeOp) (m : UnsortedMultiMerger) (a t r : Nat),
      UnsortedMultiMerger.runCount ops UnsortedMultiMerger.empty =
        some (m, a, t, r) → m.Size + t + r = a) ∧
    (∀ m : PositionMultiMerger, m.IsEmpty = true ↔ m.Size = 0) ∧
    (∀ m : ReadNameMultiMerger, m.IsEmpty = true ↔ m.Size = 0) ∧
    (∀ m : UnsortedMultiMerger, m.IsEmpty = true ↔ m.Size = 0) := by
  refine ⟨?_, ?_, ?_, ?_, ?_, ?_⟩
  · intro ops m a t r h
    have hs := posRunCount_size ops PositionMultiMerger.empty m a t r h
    simpa [PositionMultiMerger.empty, PositionMultiMerger.Size] using hs
  · intro ops m a t r h
    have hs := nameRunCount_size ops ReadNameMultiMerger.empty m a t r h
    simpa [ReadNameMultiMerger.empty, ReadNameMultiMerger.Size] using hs
  · intro ops m a t r h
    have hs := unsRunCount_size ops UnsortedMultiMerger.empty m a t r h
    simpa [UnsortedMultiMerger.empty, UnsortedMultiMerger.Size] using hs
  · intro m
    rcases m with ⟨data⟩
    cases data <;> simp [PositionMultiMerger.IsEmpty, PositionMultiMerger.Size]
  · intro m
    rcases m with ⟨data⟩
    cases data <;> simp [ReadNameMultiMerger.IsEmpty, ReadNameMultiMerger.Size]
  · intro m
    rcases m with ⟨data⟩
    cases data <;> simp [UnsortedMultiMerger.IsEmpty, UnsortedMultiMerger.Size]

/-- C8 witness: on the Position variant, inserting one entry and then
taking it leaves size 0 with one insert and one extraction counted. -/
theorem C8_size_witness :
    (⟨[]⟩ : PositionMultiMerger).Size + 1 + 0 = 1 :=
  C8_size_accounting.1 [MergeOp.add (alnPos 0 0), MergeOp.takeFirst]
    ⟨[]⟩ 1 1 0 (by decide)

/-- C9: on every non-empty merger (with the two sorted variants in a
state satisfying their ordering invariant, as every reachable state
does), `First` returns the head entry without touching the buffered
entries, `TakeFirst` removes and returns that same entry, and on the
sorted variants no buffered entry compares strictly less than the head's
stored key; on the unsorted variant the head is the oldest-inserted
entry. -/
theorem C9_first_matches_takefirst :
    (∀ m : PositionMultiMerger,
      m.m_data.Pairwise (fun a b => SortLessThanPosition b.1 a.1 = false) →
      m.IsEmpty = false →
      ∃ k v m', m.m_data.head? = some (k, v) ∧ m.First = some v ∧
        m.TakeFirst = some (v, m') ∧ m'.m_data = m.m_data.tail ∧
        ∀ e ∈ m.m_data, SortLessThanPosition e.1 k = false) ∧
    (∀ m : ReadNameMultiMerger,
      m.m_data.Pairwise (fun a b => stringLess b.1 a.1 = false) →
      m.IsEmpty = false →
      ∃ k v m', m.m_data.head? = some (k, v) ∧ m.First = some v ∧
        m.TakeFirst = some (v, m') ∧ m'.m_data = m.m_data.tail ∧
        ∀ e ∈ m.m_data, stringLess e.1 k = false) ∧
    (∀ m : UnsortedMultiMerger, m.IsEmpty = false →
      ∃ v m', m.m_data.head? = some v ∧ m.First = some v ∧
        m.TakeFirst = some (v, m') ∧ m'.m_data = m.m_data.tail) := by
  refine ⟨?_, ?_, ?_⟩
  · intro m hs hne
    rcases m with ⟨data⟩
    cases data with
    | nil => simp [PositionMultiMerger.IsEmpty] at hne
    | cons e rest =>
      refine ⟨e.1, e.2, ⟨rest⟩, rfl, rfl, rfl, rfl, ?_⟩
      intro x hx
      rcases List.mem_cons.mp hx with heq | hx
      · rw [heq]
        exact SortLessThanPosition_irrefl e.1
      · exact (List.pairwise_cons.mp hs).1 x hx
  · intro m hs hne
    rcases m with ⟨data⟩
    cases data with
    | nil => simp [ReadNameMultiMerger.IsEmpty] at hne
    | cons e rest =>
      refine ⟨e.1, e.2, ⟨rest⟩, rfl, rfl, rfl, rfl, ?_⟩
      intro x hx
      rcases List.mem_cons.mp hx with heq | hx
      · rw [heq]
        exact stringLess_irrefl e.1
      · exact (List.pairwise_cons.mp hs).1 x hx
  · intro m hne
    rcases m with ⟨data⟩
    cases data with
    | nil => simp [UnsortedMultiMerger.IsEmpty] at hne
    | cons e rest => exact ⟨e, ⟨rest⟩, rfl, rfl, rfl, rfl⟩

/-- C9 witness: the Position-variant component applied to the concrete
one-entry sorted merger holding key (0,0). -/
theorem C9_first_witness :
    ∃ k v m',
      (⟨[(((0 : Int), (0 : Int)), alnPos 0 0)]⟩ :
          PositionMultiMerger).m_data.head? = some (k, v) ∧
      (⟨[(((0 : Int), (0 : Int)), alnPos 0 0)]⟩ :
          PositionMultiMerger).First = some v ∧
      (⟨[(((0 : Int), (0 : Int)), alnPos 0 0)]⟩ :
          PositionMultiMerger).TakeFirst = some (v, m') ∧
      m'.m_data = (⟨[(((0 : Int), (0 : Int)), alnPos 0 0)]⟩ :
          PositionMultiMerger).m_data.tail ∧
      ∀ e ∈ (⟨[(((0 : Int), (0 : Int)), alnPos 0 0)]⟩ :
          PositionMultiMerger).m_data, SortLessThanPosition e.1 k = false :=
  C9_first_matches_takefirst.1 ⟨[((0, 0), alnPos 0 0)]⟩ (by simp) rfl

end BamTools
